import Mathlib

/-!
Verification of the quantipy sandbox aggregation engine
(src/sandbox/sandbox.py) against its natural-language specification.

The development shallowly embeds the parts of the `Quantity` and `Test`
classes that the claims touch.  Machine floats are modelled as exact
rationals extended with the IEEE special values that numpy produces
(`nan`, `inf`, `-inf`); matrices are total functions from case / x / y
indices, carried together with their explicit dimensions.
-/

namespace Quantipy

/-- Model of a numpy float64 cell value: an exact rational or one of the
IEEE special values nan, +inf, -inf that the engine can produce. -/
inductive NpVal where
  | num (q : ℚ)
  | nan
  | inf
  | ninf
deriving DecidableEq, Repr

namespace NpVal

/-- numpy addition on cell values (special values propagate as in IEEE). -/
def add : NpVal → NpVal → NpVal
  | num a, num b => num (a + b)
  | nan, _ => nan
  | _, nan => nan
  | inf, ninf => nan
  | ninf, inf => nan
  | inf, _ => inf
  | _, inf => inf
  | ninf, _ => ninf
  | _, ninf => ninf

/-- numpy multiplication on cell values (0 * inf = nan, sign rules as in
IEEE). -/
def mul : NpVal → NpVal → NpVal
  | num a, num b => num (a * b)
  | nan, _ => nan
  | _, nan => nan
  | num a, inf => if a > 0 then inf else if a < 0 then ninf else nan
  | inf, num a => if a > 0 then inf else if a < 0 then ninf else nan
  | num a, ninf => if a > 0 then ninf else if a < 0 then inf else nan
  | ninf, num a => if a > 0 then ninf else if a < 0 then inf else nan
  | inf, inf => inf
  | inf, ninf => ninf
  | ninf, inf => ninf
  | ninf, ninf => inf

/-- numpy division on cell values: 0/0 = nan, x/0 = signed inf for
nonzero x, finite/inf = 0, inf/inf = nan. -/
def div : NpVal → NpVal → NpVal
  | num a, num b =>
      if b = 0 then (if a = 0 then nan else if a > 0 then inf else ninf)
      else num (a / b)
  | nan, _ => nan
  | _, nan => nan
  | num _, inf => num 0
  | num _, ninf => num 0
  | inf, num b => if b < 0 then ninf else inf
  | ninf, num b => if b < 0 then inf else ninf
  | inf, inf => nan
  | inf, ninf => nan
  | ninf, inf => nan
  | ninf, ninf => nan

/-- The comparison `v > 0` as numpy evaluates it (nan compares False). -/
def isPos : NpVal → Bool
  | num a => a > 0
  | nan => false
  | inf => true
  | ninf => false

/-- Replace nan by 0; used to model `np.nansum` which skips nan entries. -/
def nanToZero : NpVal → NpVal
  | nan => num 0
  | v => v

end NpVal

/-- `np.nansum` over the index range `0, ..., n-1` of a vector of cell
values: nan entries are treated as 0, other entries are added with numpy
addition. -/
def nansum (n : ℕ) (f : ℕ → NpVal) : NpVal :=
  (List.range n).foldl (fun acc i => NpVal.add acc (NpVal.nanToZero (f i))) (NpVal.num 0)

/-- If every entry below `n` is the plain number `g i`, `nansum` is the
rational sum. -/
theorem nansum_num (n : ℕ) (f : ℕ → NpVal) (g : ℕ → ℚ)
    (h : ∀ i, i < n → f i = NpVal.num (g i)) :
    nansum n f = NpVal.num (∑ i ∈ Finset.range n, g i) := by
  induction n with
  | zero => simp [nansum]
  | succ m ih =>
      have hm : ∀ i, i < m → f i = NpVal.num (g i) := fun i hi => h i (Nat.lt_succ_of_lt hi)
      have hfold : nansum (m + 1) f
          = NpVal.add (nansum m f) (NpVal.nanToZero (f m)) := by
        simp [nansum, List.range_succ]
      rw [hfold, ih hm, h m (Nat.lt_succ_self m), Finset.sum_range_succ]
      simp [NpVal.nanToZero, NpVal.add]

/-- `nansum` only depends on the entries below `n`, up to `nanToZero`. -/
theorem nansum_congr (n : ℕ) (f g : ℕ → NpVal)
    (h : ∀ i, i < n → NpVal.nanToZero (f i) = NpVal.nanToZero (g i)) :
    nansum n f = nansum n g := by
  induction n with
  | zero => rfl
  | succ m ih =>
      have hm : ∀ i, i < m → NpVal.nanToZero (f i) = NpVal.nanToZero (g i) :=
        fun i hi => h i (Nat.lt_succ_of_lt hi)
      have hf : nansum (m + 1) f = NpVal.add (nansum m f) (NpVal.nanToZero (f m)) := by
        simp [nansum, List.range_succ]
      have hg : nansum (m + 1) g = NpVal.add (nansum m g) (NpVal.nanToZero (g m)) := by
        simp [nansum, List.range_succ]
      rw [hf, hg, ih hm, h m (Nat.lt_succ_self m)]

/-- Variable type of a Quantity, as returned by `_get_type`. -/
inductive VarType where
  | simple
  | nested
  | array
deriving DecidableEq, Repr

/-- Axis selector used by the aggregation methods. -/
inductive Axis where
  | x
  | y
deriving DecidableEq, Repr

/-- The mutable state of a `Quantity` instance that the matrix-level
operations (`weight`, `unweight`, `_switch_axes`, `_missingfy`, `count`)
read and write.  The 3D indicator tensor has shape
`[nC, nX + 1, nY + 1]`: index 0 on either section axis is the total
column.  It is represented as a total function together with the
explicit dimensions. -/
structure QState where
  nC : ℕ
  nX : ℕ
  nY : ℕ
  matrix : ℕ → ℕ → ℕ → NpVal
  wv : ℕ → NpVal
  w : String
  isWeighted : Bool
  x : String
  y : String
  typ : VarType
  xdef : Option (List ℤ)
  ydef : Option (List ℤ)
  xIdx : List ℕ
  yIdx : List ℕ
  combX : Option (List ℤ)
  combY : Option (List ℤ)
  missX : Option (List ℤ)
  missY : Option (List ℤ)
  switched : Bool
  usesMeta : Bool
  isEmpty : Bool

namespace QState

/-- `Quantity.weight` (sandbox.py lines 112-121): if the matrix is
already weighted, only the non-total block `[:, 1:, 1:]` is multiplied
by the case weight vector; otherwise the whole matrix (total rows and
columns included) is multiplied.  `is_weighted` is set to True. -/
def weight (s : QState) : QState :=
  if s.isWeighted then
    { s with
        matrix := fun c i j =>
          if 1 ≤ i ∧ 1 ≤ j then NpVal.mul (s.matrix c i j) (s.wv c)
          else s.matrix c i j,
        isWeighted := true }
  else
    { s with
        matrix := fun c i j => NpVal.mul (s.matrix c i j) (s.wv c),
        isWeighted := true }

/-- `Quantity.unweight` (sandbox.py lines 123-129): divides the
non-total block `[:, 1:, 1:]` by itself entrywise and sets
`is_weighted` to True. -/
def unweight (s : QState) : QState :=
  { s with
      matrix := fun c i j =>
        if 1 ≤ i ∧ 1 ≤ j then NpVal.div (s.matrix c i j) (s.matrix c i j)
        else s.matrix c i j,
      isWeighted := true }

/-- `Quantity._switch_axes` (sandbox.py lines 172-185): transposes the
tensor on its two section axes (both branches of the `switched` test
perform the same `swapaxes`), toggles `switched`, and swaps the
xdef/ydef, indexer, combine and missing attribute pairs.  The variable
names `x`/`y` are not swapped by the source. -/
def switchAxes (s : QState) : QState :=
  { s with
      matrix := fun c i j => s.matrix c j i,
      nX := s.nY
      nY := s.nX
      switched := !s.switched
      xdef := s.ydef
      ydef := s.xdef
      xIdx := s.yIdx
      yIdx := s.xIdx
      combX := s.combY
      combY := s.combX
      missX := s.missY
      missY := s.missX }

end QState

/-- A raw (pre-DataFrame) aggregation result: a 2D numeric block with
explicit dimensions, as held in `Quantity.result` when `as_df=False`. -/
structure Res where
  rows : ℕ
  cols : ℕ
  entry : ℕ → ℕ → NpVal

/-- The `'freq'` case of `Quantity._organize_margins` (sandbox.py lines
1170-1186): for array or total links only the first row is dropped when
`margin` is False; otherwise both the first row and the first column
are dropped.  With `margin=True` the result is left untouched. -/
def organizeMarginsFreq (s : QState) (r : Res) (margin : Bool) : Res :=
  if s.typ = VarType.array ∨ s.y = "@" ∨ s.x = "@" then
    if !margin then ⟨r.rows - 1, r.cols, fun i j => r.entry (i + 1) j⟩ else r
  else
    if !margin then ⟨r.rows - 1, r.cols - 1, fun i j => r.entry (i + 1) (j + 1)⟩ else r

/-- `Quantity.count` for the full cross-tabulation call
`count(axis=None, raw_sum=False, margin, as_df=False)` (sandbox.py
lines 794-862): weight the matrix when a weight is set, `np.nansum`
the tensor over the case axis (the `_empty_result` fallback of an
empty, meta-less link yields a zero block of the same shape), organize
the margins for the `'freq'` aggregation, and unconditionally call
`unweight()` on the state before returning. -/
def count (s : QState) (margin : Bool) : Res × QState :=
  let s1 := if s.w ≠ "@1" then s.weight else s
  let counts : Res :=
    if !s1.isEmpty ∨ s1.usesMeta then
      ⟨s1.nX + 1, s1.nY + 1, fun i j => nansum s1.nC (fun c => s1.matrix c i j)⟩
    else
      ⟨s1.nX + 1, s1.nY + 1, fun _ _ => NpVal.num 0⟩
  (organizeMarginsFreq s1 counts margin, s1.unweight)

/-- A concrete 1-case Quantity on a simple 1x1 category pair with case
weight 2: the inner cell (1,1) holds the indicator 0, every other cell
(the total row and column) holds 1. -/
def roundtripState : QState where
  nC := 1
  nX := 1
  nY := 1
  matrix := fun _ i j => if i = 1 ∧ j = 1 then NpVal.num 0 else NpVal.num 1
  wv := fun _ => NpVal.num 2
  w := "weight"
  isWeighted := false
  x := "x1"
  y := "y1"
  typ := VarType.simple
  xdef := some [1]
  ydef := some [1]
  xIdx := [1]
  yIdx := [1]
  combX := none
  combY := none
  missX := none
  missY := none
  switched := false
  usesMeta := true
  isEmpty := false

/-- C1: the claim fails on the code.  On a Quantity whose case weight
is the nonzero value 2, `weight()` followed by `unweight()` does not
restore the matrix: the zero inner cell becomes nan (it is divided by
itself, 0/0), the total cells stay multiplied by the weight (weight()
scaled the whole matrix but unweight() only touches the non-total
block), and `is_weighted` remains True. -/
theorem weight_unweight_roundtrip_bug :
    (roundtripState.weight.unweight.matrix 0 1 1 = NpVal.nan
      ∧ roundtripState.matrix 0 1 1 = NpVal.num 0)
    ∧ (roundtripState.weight.unweight.matrix 0 0 0 = NpVal.num 2
      ∧ roundtripState.matrix 0 0 0 = NpVal.num 1)
    ∧ roundtripState.weight.unweight.isWeighted = true := by
  refine ⟨⟨?_, ?_⟩, ⟨?_, ?_⟩, ?_⟩ <;>
    simp [roundtripState, QState.weight, QState.unweight, NpVal.mul, NpVal.div]

/-- Products of 0/1 indicator values are again 0 or 1. -/
theorem mul_zero_one {a b : ℚ} (ha : a = 0 ∨ a = 1) (hb : b = 0 ∨ b = 1) :
    a * b = 0 ∨ a * b = 1 := by
  rcases ha with h | h <;> rcases hb with h2 | h2 <;> simp [h, h2]

/-- Dividing a 0/1 indicator cell by itself (what `unweight` does)
keeps its nan-as-0 contribution to `np.nansum` unchanged. -/
theorem selfdiv_cell (a : ℚ) (h : a = 0 ∨ a = 1) :
    NpVal.nanToZero (NpVal.div (NpVal.num a) (NpVal.num a))
      = NpVal.nanToZero (NpVal.num a) := by
  rcases h with h | h <;> simp [h, NpVal.div, NpVal.nanToZero]

/-- Re-weighting a self-divided weighted indicator cell keeps its
nan-as-0 contribution to `np.nansum` unchanged. -/
theorem reweight_cell (a w : ℚ) (h : a = 0 ∨ a = 1) :
    NpVal.nanToZero (NpVal.mul
        (NpVal.div (NpVal.num (a * w)) (NpVal.num (a * w))) (NpVal.num w))
      = NpVal.nanToZero (NpVal.num (a * w)) := by
  rcases h with h | h
  · simp [h, NpVal.div, NpVal.mul, NpVal.nanToZero]
  · subst h
    by_cases hw : w = 0
    · simp [hw, NpVal.div, NpVal.mul, NpVal.nanToZero]
    · simp [hw, NpVal.div, NpVal.mul, NpVal.nanToZero, div_self]

/-- C2: on a simple non-total x/y pair whose tensor is built from 0/1
dummy sections with total columns of 1, `count(margin=True)` restricted
past its first row and column equals a subsequent `count(margin=False)`
call on the resulting state (the intervening `unweight` does not change
the counts), and each margin entry equals the weighted sum over the
case axis of the populated cells of its row/column, i.e. the weighted
cross-tabulation totals. -/
theorem count_margin_consistent
    (s : QState) (xs ys : ℕ → ℕ → ℚ) (w : ℕ → ℚ)
    (hmat : s.matrix = fun c i j => NpVal.num (xs c i * ys c j))
    (hwv : s.wv = fun c => NpVal.num (w c))
    (hunw : s.isWeighted = false)
    (htyp : s.typ = VarType.simple)
    (hx : s.x ≠ "@") (hy : s.y ≠ "@")
    (hmeta : s.usesMeta = true)
    (hx01 : ∀ c i, xs c i = 0 ∨ xs c i = 1)
    (hy01 : ∀ c j, ys c j = 0 ∨ ys c j = 1)
    (hx0 : ∀ c, xs c 0 = 1) (hy0 : ∀ c, ys c 0 = 1)
    (hw1 : s.w = "@1" → ∀ c, w c = 1) :
    (∀ i j, (count (count s true).2 false).1.entry i j
        = (count s true).1.entry (i + 1) (j + 1))
    ∧ (count (count s true).2 false).1.rows + 1 = (count s true).1.rows
    ∧ (count (count s true).2 false).1.cols + 1 = (count s true).1.cols
    ∧ (∀ j, (count s true).1.entry 0 j
        = NpVal.num (∑ c ∈ Finset.range s.nC, w c * ys c j))
    ∧ (∀ i, (count s true).1.entry i 0
        = NpVal.num (∑ c ∈ Finset.range s.nC, w c * xs c i)) := by
  by_cases hw : s.w = "@1"
  · have h1 : count s true
        = (⟨s.nX + 1, s.nY + 1, fun i j => nansum s.nC fun c => s.matrix c i j⟩,
           s.unweight) := by
      simp [count, organizeMarginsFreq, hw, hmeta, htyp, hx, hy]
    have h2 : (count s.unweight false).1
        = ⟨s.nX + 1 - 1, s.nY + 1 - 1,
           fun i j => nansum s.nC fun c => s.unweight.matrix c (i + 1) (j + 1)⟩ := by
      simp [count, organizeMarginsFreq, hw, hmeta, htyp, hx, hy, QState.unweight]
    rw [h1]
    refine ⟨?_, by rw [h2]; rfl, by rw [h2]; rfl, ?_, ?_⟩
    · intro i j
      rw [h2]
      refine nansum_congr _ _ _ (fun c hc => ?_)
      simp only [QState.unweight, hmat]
      rw [if_pos ⟨Nat.le_add_left 1 i, Nat.le_add_left 1 j⟩]
      exact selfdiv_cell _ (mul_zero_one (hx01 c (i + 1)) (hy01 c (j + 1)))
    · intro j
      show nansum s.nC (fun c => s.matrix c 0 j) = _
      rw [nansum_num _ _ (fun c => xs c 0 * ys c j) (fun c _ => by rw [hmat])]
      exact congrArg _ (Finset.sum_congr rfl
        (fun c _ => by simp [hx0 c, hw1 hw c]))
    · intro i
      show nansum s.nC (fun c => s.matrix c i 0) = _
      rw [nansum_num _ _ (fun c => xs c i * ys c 0) (fun c _ => by rw [hmat])]
      exact congrArg _ (Finset.sum_congr rfl
        (fun c _ => by simp [hy0 c, hw1 hw c]))
  · have hmat1 : s.weight.matrix = fun c i j => NpVal.num (xs c i * ys c j * w c) := by
      funext c i j
      simp [QState.weight, hunw, hmat, hwv, NpVal.mul]
    have h1 : count s true
        = (⟨s.nX + 1, s.nY + 1, fun i j => nansum s.nC fun c => s.weight.matrix c i j⟩,
           s.weight.unweight) := by
      simp [count, organizeMarginsFreq, hw, hmeta, htyp, hx, hy, QState.weight, hunw]
    have h2 : (count s.weight.unweight false).1
        = ⟨s.nX + 1 - 1, s.nY + 1 - 1,
           fun i j => nansum s.nC fun c =>
             (s.weight.unweight.weight).matrix c (i + 1) (j + 1)⟩ := by
      simp [count, organizeMarginsFreq, hw, hmeta, htyp, hx, hy,
            QState.weight, QState.unweight, hunw]
    rw [h1]
    refine ⟨?_, by rw [h2]; rfl, by rw [h2]; rfl, ?_, ?_⟩
    · intro i j
      rw [h2]
      refine nansum_congr _ _ _ (fun c hc => ?_)
      have hij : 1 ≤ i + 1 ∧ 1 ≤ j + 1 := ⟨Nat.le_add_left 1 i, Nat.le_add_left 1 j⟩
      unfold QState.weight QState.unweight
      simp only [hunw, Bool.false_eq_true, if_false, hij, and_self, if_true, ite_true,
                 ite_false, hmat, hwv]
      simp only [NpVal.mul]
      exact reweight_cell _ _ (mul_zero_one (hx01 c (i + 1)) (hy01 c (j + 1)))
    · intro j
      show nansum s.nC (fun c => s.weight.matrix c 0 j) = _
      rw [nansum_num _ _ (fun c => xs c 0 * ys c j * w c) (fun c _ => by rw [hmat1])]
      exact congrArg _ (Finset.sum_congr rfl
        (fun c _ => by simp [hx0 c, mul_comm]))
    · intro i
      show nansum s.nC (fun c => s.weight.matrix c i 0) = _
      rw [nansum_num _ _ (fun c => xs c i * ys c 0 * w c) (fun c _ => by rw [hmat1])]
      exact congrArg _ (Finset.sum_congr rfl
        (fun c _ => by simp [hy0 c, mul_comm]))

/-- A concrete 2-case unweighted Quantity on a simple 1x1 pair whose
tensor cells are all 1 (both cases populate the single category on each
axis). -/
def countWitnessState : QState where
  nC := 2
  nX := 1
  nY := 1
  matrix := fun _ _ _ => NpVal.num 1
  wv := fun _ => NpVal.num 1
  w := "@1"
  isWeighted := false
  x := "x1"
  y := "y1"
  typ := VarType.simple
  xdef := some [1]
  ydef := some [1]
  xIdx := [1]
  yIdx := [1]
  combX := none
  combY := none
  missX := none
  missY := none
  switched := false
  usesMeta := true
  isEmpty := false

/-- Witness for C2: the margin-consistency theorem instantiated at the
concrete 2-case Quantity. -/
theorem count_margin_consistent_witness :
    (∀ i j, (count (count countWitnessState true).2 false).1.entry i j
        = (count countWitnessState true).1.entry (i + 1) (j + 1))
    ∧ (count (count countWitnessState true).2 false).1.rows + 1
        = (count countWitnessState true).1.rows
    ∧ (count (count countWitnessState true).2 false).1.cols + 1
        = (count countWitnessState true).1.cols
    ∧ (∀ j, (count countWitnessState true).1.entry 0 j
        = NpVal.num (∑ c ∈ Finset.range countWitnessState.nC,
            (fun _ : ℕ => (1 : ℚ)) c * (fun _ _ : ℕ => (1 : ℚ)) c j))
    ∧ (∀ i, (count countWitnessState true).1.entry i 0
        = NpVal.num (∑ c ∈ Finset.range countWitnessState.nC,
            (fun _ : ℕ => (1 : ℚ)) c * (fun _ _ : ℕ => (1 : ℚ)) c i)) :=
  count_margin_consistent countWitnessState
    (fun _ _ => 1) (fun _ _ => 1) (fun _ => 1)
    (by funext c i j; norm_num [countWitnessState]) rfl rfl rfl
    (by simp [countWitnessState]) (by simp [countWitnessState]) rfl
    (fun _ _ => Or.inr rfl) (fun _ _ => Or.inr rfl)
    (fun _ => rfl) (fun _ => rfl) (fun _ _ => rfl)

/-- C4: applying the internal axis switch twice restores `xdef`,
`ydef`, the x/y indexers, the combine and missing lists, the `switched`
flag and the matrix exactly. -/
theorem switch_axes_involutive (s : QState) : s.switchAxes.switchAxes = s := by
  cases s
  simp [QState.switchAxes]

/-- `Quantity._sects_identical` (sandbox.py lines 1572-1574): plain
equality of the two axis definitions. -/
def sectsIdentical (axdef1 axdef2 : List ℤ) : Bool :=
  axdef1 == axdef2

/-- `Quantity._sects_different_order` (sandbox.py lines 1576-1584):
returns False when the lengths differ; otherwise the source tests the
truthiness of the generator expression `(x for x in axdef1 if x in
axdef2)`, and a generator object is always truthy in Python, so the
function returns True for any two equal-length axes regardless of
their contents. -/
def sectsDifferentOrder (axdef1 axdef2 : List ℤ) : Bool :=
  if axdef1.length = axdef2.length then true else false

/-- `Quantity._sect_is_subset` (sandbox.py lines 1586-1588): evaluates
`set(axdef1).intersection(set(axdef2)) > 0`.  Under Python 2 a set
compares greater than any number (numeric types order before all other
types), so the comparison is True for every pair of axes, including
disjoint ones. -/
def sectIsSubset (_axdef1 _axdef2 : List ℤ) : Bool :=
  true

/-- The branch `Quantity.rebase` takes when aligning the reference
variable's axis with the current x-axis. -/
inductive RebaseBranch where
  | ident
  | reorder
  | subset
  | err
deriving DecidableEq, Repr

/-- The axis-alignment dispatch of `Quantity.rebase` (sandbox.py lines
1549-1562): identical axes pass through, equal-length axes are treated
as reordered, axes classified as subsets are filtered, and only the
remaining case raises the axis-incompatibility IndexError. -/
def rebaseBranch (xdef refXdef : List ℤ) : RebaseBranch :=
  if sectsIdentical xdef refXdef then RebaseBranch.ident
  else if sectsDifferentOrder xdef refXdef then RebaseBranch.reorder
  else if sectIsSubset xdef refXdef then RebaseBranch.subset
  else RebaseBranch.err

/-- C3: the claim fails on the code.  For the disjoint axes [1, 2] and
[3, 4, 5] no axis-incompatibility error is raised (the subset branch is
taken), and in fact the IndexError branch of rebase is unreachable for
every pair of axis definitions, because `_sects_different_order` tests
an always-truthy generator object and `_sect_is_subset` compares a set
against 0, which is always True in Python 2. -/
theorem rebase_axis_error_unreachable :
    rebaseBranch [1, 2] [3, 4, 5] = RebaseBranch.subset
    ∧ ∀ a b : List ℤ,
        rebaseBranch a b = RebaseBranch.ident
        ∨ rebaseBranch a b = RebaseBranch.reorder
        ∨ rebaseBranch a b = RebaseBranch.subset := by
  refine ⟨by decide, fun a b => ?_⟩
  unfold rebaseBranch
  split
  · exact Or.inl rfl
  · split
    · exact Or.inr (Or.inl rfl)
    · exact Or.inr (Or.inr (by simp [sectIsSubset]))

/-- The test-mimic profiles accepted by `Test.set_params`. -/
inductive Mimic where
  | dim
  | askia
deriving DecidableEq, Repr

/-- A significance-level argument to `Test._convert_level`: one of the
named string levels or a numeric (non-string) value. -/
inductive TLevel where
  | low
  | mid
  | high
  | num (q : ℚ)
deriving DecidableEq, Repr

/-- `Test._convert_level` (sandbox.py lines 1870-1907): the named
levels map per mimic to fixed (comparison value, significance level)
pairs; a non-string level yields the level itself twice under the Dim
mimic and the fixed pair (1.65, 0.10) under the askia mimic, whatever
the number passed. -/
def convertLevel (mimic : Mimic) (level : TLevel) : ℚ × ℚ :=
  match level, mimic with
  | TLevel.low, Mimic.dim => (1/10, 1/10)
  | TLevel.low, Mimic.askia => (33/20, 1/10)
  | TLevel.mid, Mimic.dim => (1/20, 1/20)
  | TLevel.mid, Mimic.askia => (49/25, 1/20)
  | TLevel.high, Mimic.dim => (1/100, 1/100)
  | TLevel.high, Mimic.askia => (322/125, 1/100)
  | TLevel.num q, Mimic.dim => (q, q)
  | TLevel.num _, Mimic.askia => (33/20, 1/10)

/-- C10: for an askia-mimicking test, any numeric significance level
yields comparison value 1.65 = 33/20 and significance level
0.10 = 1/10, and the named levels low/mid/high map to 1.65, 1.96 =
49/25, 2.576 = 322/125 with significance levels 0.10, 0.05, 0.01. -/
theorem convert_level_askia :
    (∀ q : ℚ, convertLevel Mimic.askia (TLevel.num q) = (33/20, 1/10))
    ∧ convertLevel Mimic.askia TLevel.low = (33/20, 1/10)
    ∧ convertLevel Mimic.askia TLevel.mid = (49/25, 1/20)
    ∧ convertLevel Mimic.askia TLevel.high = (322/125, 1/100) :=
  ⟨fun _ => rfl, rfl, rfl, rfl⟩

/-- Stable insertion of a (value, weight) pair into a value-ascending
list; used to model the ascending sort of `np.argsort` over a column. -/
def insertPair (p : ℚ × ℚ) : List (ℚ × ℚ) → List (ℚ × ℚ)
  | [] => [p]
  | q :: rest => if p.1 ≤ q.1 then p :: q :: rest else q :: insertPair p rest

/-- Sort (value, weight) pairs ascending by value. -/
def sortPairs : List (ℚ × ℚ) → List (ℚ × ℚ)
  | [] => []
  | p :: rest => insertPair p (sortPairs rest)

/-- Cumulative sums of a list, as `np.cumsum` produces them. -/
def cumsum (l : List ℚ) : List ℚ :=
  (l.scanl (· + ·) 0).tail

/-- One column pass of `Quantity._percentile` (sandbox.py lines
1085-1121), applied to the (value, weight) pairs that remain after the
nan-weight mask: sort values ascending with their weights, form the
total and cumulative weight sums, and locate `k = (wsum + 1) * perc`.
No values return 0 and a single value is returned as is; a first
cumulative weight above k returns the minimum and a last cumulative
weight at most k returns the maximum; otherwise `np.searchsorted`
finds the largest cumulative sum at most k and the result interpolates
between the order statistics around it, scaling the excess by the next
weight when that weight is fractional.  (Out-of-range list reads use a
0 default; the guarding branches keep them in range.) -/
def percColumn (pairs : List (ℚ × ℚ)) (perc : ℚ) : ℚ :=
  let sorted := sortPairs pairs
  let vals := sorted.map Prod.fst
  let weights := sorted.map Prod.snd
  let wsum := weights.foldl (· + ·) 0
  let wcsum := cumsum weights
  let k := (wsum + 1) * perc
  if vals.length = 0 then 0
  else if vals.length = 1 then vals.headI
  else if wcsum.headI > k then vals.headI
  else if wcsum.getLastI ≤ k then vals.getLastI
  else
    let wcsumK := (wcsum.filter (fun x => decide (x ≤ k))).getLastI
    let pkIdx := wcsum.findIdx (fun x => decide (wcsumK ≤ x))
    let pk := vals.getD pkIdx 0
    let pk1 := vals.getD (pkIdx + 1) 0
    let wk1 := weights.getD (pkIdx + 1) 0
    let excess := k - wcsumK
    if excess ≥ 1 then pk1
    else if wk1 ≥ 1 then (1 - excess) * pk + excess * pk1
    else (1 - excess / wk1) * pk + (excess / wk1) * pk1

/-- The `'median'` dispatch of `Quantity.summarize` (sandbox.py lines
966-967): the median is `_percentile` with perc = 0.5. -/
def summarizeMedian (pairs : List (ℚ × ℚ)) : ℚ :=
  percColumn pairs (1/2)

/-- C5: `summarize('median')` on the column values [1,2,3,4,5] under
uniform weight 1 returns 3; the percentile routine returns the sole
value when exactly one valid value exists and 0 when none do. -/
theorem summarize_median_spec :
    summarizeMedian [(1, 1), (2, 1), (3, 1), (4, 1), (5, 1)] = 3
    ∧ (∀ v wt p : ℚ, percColumn [(v, wt)] p = v)
    ∧ (∀ p : ℚ, percColumn [] p = 0) := by
  refine ⟨?_, fun v wt p => ?_, fun p => rfl⟩
  · norm_num [summarizeMedian, percColumn, sortPairs, insertPair, cumsum, List.scanl,
              List.findIdx, List.findIdx.go, List.getD, List.headI, List.getLastI,
              List.getLast?]
  · simp [percColumn, sortPairs, insertPair, cumsum]

/-- Plain `np.sum` over the index range `0, ..., n-1`: nan entries
poison the sum, matching numpy addition. -/
def npsum (n : ℕ) (f : ℕ → NpVal) : NpVal :=
  (List.range n).foldl (fun acc i => NpVal.add acc (f i)) (NpVal.num 0)

/-- `Quantity._get_drop_idx` (sandbox.py lines 421-447) for a non-None
code list: with `keep` the positions of the axis codes outside `codes`,
otherwise the positions of the `codes` present on the axis. -/
def getDropIdx (xdef codes : List ℤ) (keep : Bool) : List ℕ :=
  if keep then
    (xdef.filter (fun c => decide (c ∉ codes))).map (fun c => xdef.indexOf c)
  else
    (codes.filter (fun c => decide (c ∈ xdef))).map (fun c => xdef.indexOf c)

/-- The row mask of `_missingfy` for non-array types (sandbox.py lines
372-375): a case survives when the nansum over the y-axis of the plain
x-section sums is positive (nan compares False). -/
def missingfyMaskSimple (s : QState) (c : ℕ) : Bool :=
  (nansum (s.nY + 1) (fun j => npsum (s.nX + 1) (fun i => s.matrix c i j))).isPos

/-- `np.nansum` over an explicit list of section indices. -/
def nansumIdx (ixs : List ℕ) (f : ℕ → NpVal) : NpVal :=
  ixs.foldl (fun acc ix => NpVal.add acc (NpVal.nanToZero (f ix))) (NpVal.num 0)

/-- The row mask of `_missingfy` for array types (sandbox.py lines
367-371): nansum the selected x-sections, divide the sum by itself and
keep the positive cells. -/
def missingfyMaskArray (s : QState) (c j : ℕ) : Bool :=
  let t := nansumIdx s.xIdx (fun ix => s.matrix c ix j)
  (NpVal.div t t).isPos

/-- `Quantity._missingfy` (sandbox.py lines 312-387) for the
inplace=True call shape used by `exclude` and `limit`: a y-axis call on
a non-array total ('@') link returns the instance untouched; a y-axis
call on an array link raises NotImplementedError; otherwise the state
is axis-switched if needed, the matched section columns have their
positive entries replaced by nan, and when `keep_base` is False the
missing codes are recorded on the current (possibly switched) axis and
the cases failing the row mask are nulled (the boolean-mask assignment
`matrix[~mask] = np.NaN` is modelled as nulling every cell of a failing
case, per the spec reading that the row is nulled entirely; for arrays
the failing (case, y) cells are nulled across all x-sections). -/
def missingfy (s : QState) (codes : List ℤ) (axis : Axis)
    (keepCodes keepBase : Bool) : Except String QState :=
  if axis = Axis.y ∧ s.y = "@" ∧ ¬s.typ = VarType.array then Except.ok s
  else if axis = Axis.y ∧ s.typ = VarType.array then
    Except.error "NotImplementedError: Cannot missingfy array mask element sections!"
  else
    let m0 := if axis = Axis.y then s.switchAxes else s
    let misIx := (getDropIdx (m0.xdef.getD []) codes keepCodes).map (· + 1)
    let m1 := { m0 with
                  matrix := fun c i j =>
                    if i ∈ misIx ∧ (m0.matrix c i j).isPos then NpVal.nan
                    else m0.matrix c i j }
    let m2 :=
      if keepBase then m1
      else
        let m1b := if axis = Axis.x then { m1 with missX := some codes }
                   else { m1 with missY := some codes }
        if m1b.typ = VarType.array then
          { m1b with
              matrix := fun c i j =>
                if missingfyMaskArray m1b c j then m1b.matrix c i j else NpVal.nan }
        else
          { m1b with
              matrix := fun c i j =>
                if missingfyMaskSimple m1b c then m1b.matrix c i j else NpVal.nan }
    Except.ok (if axis = Axis.y then m2.switchAxes else m2)

/-- `Quantity.exclude` (sandbox.py lines 263-269): `_missingfy` with
keep_codes=False, keep_base=False, inplace=True. -/
def exclude (s : QState) (codes : List ℤ) (axis : Axis) : Except String QState :=
  missingfy s codes axis false false

/-- `Quantity.limit` (sandbox.py lines 271-278): `_missingfy` with
keep_codes=True, keep_base=True, inplace=True. -/
def limit (s : QState) (codes : List ℤ) (axis : Axis) : Except String QState :=
  missingfy s codes axis true true

/-- C9: `exclude` and `limit` on axis y of a non-array Quantity whose
y-axis is the total-only '@' axis are silent no-ops returning the state
unchanged, while the same calls on an array-typed Quantity raise
NotImplementedError. -/
theorem exclude_limit_total_y
    (s t : QState) (codes codes2 : List ℤ)
    (harr : s.typ ≠ VarType.array) (hy : s.y = "@")
    (htarr : t.typ = VarType.array) :
    exclude s codes Axis.y = Except.ok s
    ∧ limit s codes Axis.y = Except.ok s
    ∧ exclude t codes2 Axis.y
        = Except.error "NotImplementedError: Cannot missingfy array mask element sections!"
    ∧ limit t codes2 Axis.y
        = Except.error "NotImplementedError: Cannot missingfy array mask element sections!" := by
  refine ⟨?_, ?_, ?_, ?_⟩ <;>
    simp [exclude, limit, missingfy, hy, harr, htarr]

/-- A concrete simple total-y Quantity used to witness the no-op half
of the total-y theorem. -/
def totalYState : QState where
  nC := 1
  nX := 1
  nY := 0
  matrix := fun _ _ _ => NpVal.num 1
  wv := fun _ => NpVal.num 1
  w := "@1"
  isWeighted := false
  x := "x1"
  y := "@"
  typ := VarType.simple
  xdef := some [1]
  ydef := none
  xIdx := [1]
  yIdx := [1]
  combX := none
  combY := none
  missX := none
  missY := none
  switched := false
  usesMeta := true
  isEmpty := false

/-- A concrete array-typed Quantity used to witness the raising half of
the total-y theorem. -/
def arrayState : QState :=
  { totalYState with typ := VarType.array, x := "arr", y := "@" }

/-- Witness for C9: the total-y theorem instantiated at the concrete
simple and array states. -/
theorem exclude_limit_total_y_witness :
    exclude totalYState [1] Axis.y = Except.ok totalYState
    ∧ limit totalYState [1] Axis.y = Except.ok totalYState
    ∧ exclude arrayState [1] Axis.y
        = Except.error "NotImplementedError: Cannot missingfy array mask element sections!"
    ∧ limit arrayState [1] Axis.y
        = Except.error "NotImplementedError: Cannot missingfy array mask element sections!" :=
  exclude_limit_total_y totalYState arrayState [1] [1]
    (by simp [totalYState]) rfl rfl

/-- The `expand` argument values `'before'` / `'after'`. -/
inductive Expand where
  | before
  | after
deriving DecidableEq, Repr

/-- A group value inside a combine instruction dict: either a list of
category codes, or a non-list definition (a tuple-encoded logical
expression or a nested wildcard dict).  `_grp_type` classifies the
latter as 'logical' or 'wildcard' and `_organize_grp_def` treats both
identically, so they share one constructor; their payload is not
carried because its only use in the source - extending `codes_used` -
feeds the duplicate check, which is skipped whenever such a group is
present. -/
inductive GrpVal where
  | codes (cs : List ℤ)
  | logical
deriving DecidableEq, Repr

/-- One entry of a block combine definition: the `{name: value}` dict
with its optional `'expand'` key (`none` when the key is absent,
`some e` when present, where `e` may itself be the Python None). -/
structure Grp where
  name : String
  val : GrpVal
  expandKey : Option (Option Expand)
deriving DecidableEq, Repr

/-- A name slot of an organized group entry: either a user group name
or a bare code (the auto-filled entries of `_add_unused_codes` use the
code itself as the name). -/
inductive GName where
  | ofCode (c : ℤ)
  | ofStr (s : String)
deriving DecidableEq, Repr

/-- An organized combine entry `[name, codes, expand, logical]` as
produced by `_organize_grp_def`. -/
structure OrgGrp where
  name : GName
  codes : List ℤ
  expand : Option Expand
  logical : Bool
deriving DecidableEq, Repr

/-- `Quantity._add_unused_codes` (sandbox.py lines 586-603): start from
the axis codes as singleton placeholders; each group replaces the slot
of the first of its codes still present and deletes the slots of its
further codes; surviving placeholders become singleton pass-through
entries in their natural axis position. -/
def addUnusedCodes (queryCodes : List ℤ) (orgs : List OrgGrp) : List OrgGrp :=
  let frame0 : List (Option (ℤ ⊕ OrgGrp)) := queryCodes.map (fun c => some (Sum.inl c))
  let placeGrp : List (Option (ℤ ⊕ OrgGrp)) → OrgGrp → List (Option (ℤ ⊕ OrgGrp)) :=
    fun fr grp =>
      (grp.codes.foldl
        (fun acc c =>
          match acc.1.findIdx? (fun slot => slot = some (Sum.inl c)) with
          | none => acc
          | some idx =>
              if acc.2 then (acc.1.set idx none, acc.2)
              else (acc.1.set idx (some (Sum.inr grp)), true))
        (fr, false)).1
  let frame := orgs.foldl placeGrp frame0
  frame.foldr
    (fun slot acc =>
      match slot with
      | none => acc
      | some (Sum.inl c) => ⟨GName.ofCode c, [c], none, false⟩ :: acc
      | some (Sum.inr g) => g :: acc) []

/-- The per-group resolution of the `expand` argument inside
`_organize_grp_def`: a present `'expand'` key wins (upgraded to
`'before'` when it holds None and `complete` is set), otherwise the
method-level expand (itself upgraded to `'before'` when None under
`complete`) applies. -/
def grpExpand (methodExpand : Option Expand) (complete : Bool) (g : Grp) : Option Expand :=
  match g.expandKey with
  | some e => if e = none ∧ complete then some Expand.before else e
  | none => if methodExpand = none ∧ complete then some Expand.before else methodExpand

/-- One iteration of the group loop of `_organize_grp_def` (sandbox.py
lines 617-642), threading (organized, codes_used, any_extensions,
any_logical): logical/wildcard groups raise under `complete` and
otherwise set the logical flag; code-list groups resolve their expand
value and extend the used-code list. -/
def orgStep (methodExpand : Option Expand) (complete : Bool)
    (acc : List OrgGrp × List ℤ × Bool × Bool) (g : Grp) :
    Except String (List OrgGrp × List ℤ × Bool × Bool) :=
  match g.val with
  | GrpVal.logical =>
      if complete then
        Except.error "NotImplementedError: Logical expr. unsupported when complete=True."
      else
        Except.ok (acc.1 ++ [⟨GName.ofStr g.name, [], none, true⟩],
                   acc.2.1, acc.2.2.1, true)
  | GrpVal.codes cs =>
      let expand := grpExpand methodExpand complete g
      Except.ok (acc.1 ++ [⟨GName.ofStr g.name, cs, expand, false⟩],
                 acc.2.1 ++ cs, acc.2.2.1 || expand.isSome, acc.2.2.2)

/-- The codes used by the code-list groups of a block definition, in
order, as `codes_used` collects them. -/
def grpsCodes : List Grp → List ℤ
  | [] => []
  | g :: rest =>
      (match g.val with
       | GrpVal.codes cs => cs
       | GrpVal.logical => []) ++ grpsCodes rest

/-- `Quantity._organize_grp_def` (sandbox.py lines 605-651) for a block
(list of dicts) definition: `any_extensions` starts at `complete`; each
group is organized in turn (logical groups raising under `complete`);
after the loop, duplicate used codes raise when extensions are active
and no logical group was seen; under `complete` the organized list is
completed with the unused axis codes (`queryCodes` is the xdef/ydef of
the grouped axis). -/
def organizeGrpDef (queryCodes : List ℤ) (grps : List Grp)
    (methodExpand0 : Option Expand) (complete : Bool) :
    Except String (List OrgGrp) :=
  let methodExpand :=
    if methodExpand0 = none ∧ complete then some Expand.before else methodExpand0
  match grps.foldlM (orgStep methodExpand complete) ([], [], complete, false) with
  | Except.error e => Except.error e
  | Except.ok (org, codesUsed, anyExt, anyLogical) =>
      if !anyLogical && (codesUsed.dedup.length != codesUsed.length) && anyExt then
        Except.error "NotImplementedError: Same codes in multiple groups unsupported with expand and/or complete =True."
      else if complete then Except.ok (addUnusedCodes queryCodes org)
      else Except.ok org

/-- Whether `expand` and/or `complete` is active for a block
definition: `complete` itself, or some group resolving to a non-None
expand under the (adjusted) method-level expand. -/
def anyExpandActive (methodExpand0 : Option Expand) (complete : Bool)
    (grps : List Grp) : Bool :=
  complete ||
    grps.any (fun g =>
      (grpExpand
        (if methodExpand0 = none ∧ complete then some Expand.before else methodExpand0)
        complete g).isSome)

/-- Binding an Except error short-circuits. -/
theorem except_bind_error {α β γ : Type} (e : α) (f : β → Except α γ) :
    (Except.error e >>= f) = Except.error e := rfl

/-- Binding an Except success applies the continuation. -/
theorem except_bind_ok {α β γ : Type} (b : β) (f : β → Except α γ) :
    (Except.ok b >>= f : Except α γ) = f b := rfl

/-- Under `complete`, the group fold errors as soon as it reaches a
logical group. -/
theorem orgFold_logical_error (methodExpand : Option Expand) (grps : List Grp)
    (acc : List OrgGrp × List ℤ × Bool × Bool)
    (hl : ∃ g ∈ grps, g.val = GrpVal.logical) :
    ∃ e, grps.foldlM (orgStep methodExpand true) acc = Except.error e := by
  induction grps generalizing acc with
  | nil => simp at hl
  | cons g rest ih =>
      rw [List.foldlM_cons]
      cases hv : g.val with
      | logical =>
          refine ⟨"NotImplementedError: Logical expr. unsupported when complete=True.", ?_⟩
          have hstep : orgStep methodExpand true acc g
              = Except.error "NotImplementedError: Logical expr. unsupported when complete=True." := by
            simp [orgStep, hv]
          rw [hstep, except_bind_error]
      | codes cs =>
          rcases hl with ⟨g2, hg2, hval⟩
          have h2 : g2 ∈ rest := by
            rcases List.mem_cons.mp hg2 with h | h
            · rw [h, hv] at hval; cases hval
            · exact h
          rcases ih ((acc.1 ++ [⟨GName.ofStr g.name, cs, grpExpand methodExpand true g, false⟩],
              acc.2.1 ++ cs, acc.2.2.1 || (grpExpand methodExpand true g).isSome, acc.2.2.2))
              ⟨g2, h2, hval⟩ with ⟨e, he⟩
          refine ⟨e, ?_⟩
          have hstep : orgStep methodExpand true acc g
              = Except.ok (acc.1 ++ [⟨GName.ofStr g.name, cs, grpExpand methodExpand true g, false⟩],
                  acc.2.1 ++ cs, acc.2.2.1 || (grpExpand methodExpand true g).isSome, acc.2.2.2) := by
            simp [orgStep, hv]
          rw [hstep, except_bind_ok, he]

/-- Without logical groups, the group fold succeeds and its used codes,
extension flag and logical flag are characterized. -/
theorem orgFold_char (methodExpand : Option Expand) (complete : Bool)
    (grps : List Grp) (org0 : List OrgGrp) (codes0 : List ℤ) (ext0 : Bool)
    (hnl : ∀ g ∈ grps, g.val ≠ GrpVal.logical) :
    ∃ org, grps.foldlM (orgStep methodExpand complete) (org0, codes0, ext0, false)
      = Except.ok (org, codes0 ++ grpsCodes grps,
          ext0 || grps.any (fun g => (grpExpand methodExpand complete g).isSome),
          false) := by
  induction grps generalizing org0 codes0 ext0 with
  | nil =>
      refine ⟨org0, ?_⟩
      simp only [List.foldlM_nil, grpsCodes, List.append_nil, List.any_nil, Bool.or_false]
      rfl
  | cons g rest ih =>
      cases hv : g.val with
      | logical => exact absurd hv (hnl g (List.mem_cons_self g rest))
      | codes cs =>
          have hrest : ∀ g2 ∈ rest, g2.val ≠ GrpVal.logical :=
            fun g2 h => hnl g2 (List.mem_cons_of_mem g h)
          rcases ih (org0 ++ [⟨GName.ofStr g.name, cs, grpExpand methodExpand complete g, false⟩])
              (codes0 ++ cs) (ext0 || (grpExpand methodExpand complete g).isSome) hrest with
            ⟨org, horg⟩
          refine ⟨org, ?_⟩
          rw [List.foldlM_cons]
          have hstep : orgStep methodExpand complete (org0, codes0, ext0, false) g
              = Except.ok (org0 ++ [⟨GName.ofStr g.name, cs, grpExpand methodExpand complete g, false⟩],
                  codes0 ++ cs, ext0 || (grpExpand methodExpand complete g).isSome, false) := by
            simp [orgStep, hv]
          rw [hstep, except_bind_ok, horg]
          have hcodes : grpsCodes (g :: rest) = cs ++ grpsCodes rest := by
            simp [grpsCodes, hv]
          have hany : (g :: rest).any (fun g2 => (grpExpand methodExpand complete g2).isSome)
              = ((grpExpand methodExpand complete g).isSome
                  || rest.any (fun g2 => (grpExpand methodExpand complete g2).isSome)) := by
            simp
          rw [hcodes, hany]
          simp [List.append_assoc, Bool.or_assoc]

/-- C8 (amended): `_organize_grp_def` raises NotImplementedError, before
the matrix is modified, whenever a logical group definition is combined
with complete=True, and whenever - in a definition containing no
logical group - the same code belongs to more than one group while
expand and/or complete is active.  (When a logical group is present
alongside overlapping code-list groups, the duplicate check is skipped
and no error is raised; see the counterexample.) -/
theorem organize_grp_def_raises
    (queryCodes : List ℤ) (grps : List Grp) (methodExpand0 : Option Expand)
    (complete : Bool) :
    ((∃ g ∈ grps, g.val = GrpVal.logical) → complete = true →
        ∃ e, organizeGrpDef queryCodes grps methodExpand0 complete = Except.error e)
    ∧ ((∀ g ∈ grps, g.val ≠ GrpVal.logical) →
        (grpsCodes grps).dedup.length ≠ (grpsCodes grps).length →
        anyExpandActive methodExpand0 complete grps = true →
        ∃ e, organizeGrpDef queryCodes grps methodExpand0 complete = Except.error e) := by
  constructor
  · intro hl hc
    subst hc
    rcases orgFold_logical_error
        (if methodExpand0 = none ∧ true then some Expand.before else methodExpand0)
        grps ([], [], true, false) hl with ⟨e, he⟩
    refine ⟨e, ?_⟩
    simp only [organizeGrpDef]
    simp only [eq_self_iff_true, and_true] at he ⊢
    rw [he]
  · intro hnl hdup hact
    rcases orgFold_char
        (if methodExpand0 = none ∧ complete then some Expand.before else methodExpand0)
        complete grps [] [] complete hnl with ⟨org, horg⟩
    refine ⟨"NotImplementedError: Same codes in multiple groups unsupported with expand and/or complete =True.", ?_⟩
    simp only [organizeGrpDef]
    rw [horg]
    dsimp only [List.nil_append]
    have hC : (!false && ((grpsCodes grps).dedup.length != (grpsCodes grps).length)
        && (complete || grps.any (fun g => (grpExpand
            (if methodExpand0 = none ∧ complete then some Expand.before else methodExpand0)
            complete g).isSome))) = true := by
      unfold anyExpandActive at hact
      simp only [Bool.not_false, Bool.true_and, Bool.and_eq_true]
      exact ⟨bne_iff_ne.mpr hdup, hact⟩
    rw [if_pos hC]

/-- C8 counterexample: a block definition with overlapping code-list
groups, an active expand, and a logical third group is accepted without
raising - the duplicate-code check is skipped because a logical group
is present. -/
theorem group_overlap_with_logical_no_raise :
    organizeGrpDef []
      [⟨"A", GrpVal.codes [1, 2], some (some Expand.after)⟩,
       ⟨"B", GrpVal.codes [2, 3], none⟩,
       ⟨"C", GrpVal.logical, none⟩] none false
      = Except.ok
          [⟨GName.ofStr "A", [1, 2], some Expand.after, false⟩,
           ⟨GName.ofStr "B", [2, 3], none, false⟩,
           ⟨GName.ofStr "C", [], none, true⟩] := by
  rfl

/-- Witness for C8: the amended theorem applied to a concrete logical
group under complete=True and to a concrete overlapping pair of plain
code groups under an active expand. -/
theorem organize_grp_def_raises_witness :
    (∃ e, organizeGrpDef [] [⟨"L", GrpVal.logical, none⟩] none true = Except.error e)
    ∧ (∃ e, organizeGrpDef []
        [⟨"A", GrpVal.codes [1, 2], none⟩, ⟨"B", GrpVal.codes [2, 3], none⟩]
        (some Expand.after) false = Except.error e) :=
  ⟨(organize_grp_def_raises [] [⟨"L", GrpVal.logical, none⟩] none true).1
      ⟨⟨"L", GrpVal.logical, none⟩, by decide, rfl⟩ rfl,
   (organize_grp_def_raises []
        [⟨"A", GrpVal.codes [1, 2], none⟩, ⟨"B", GrpVal.codes [2, 3], none⟩]
        (some Expand.after) false).2
      (by decide) (by decide) (by decide)⟩

/-- The callable cache collaborator of a Quantity (`link.cache`),
holding the memoized weight vectors and dummy matrices that
`_get_matrix` reads through `get_obj`; on a miss the same values are
recomputed from the data, so lookups are modelled directly against the
stored tables. -/
structure CacheStore where
  weightVectors : List (String × (ℕ → ℚ))
  matrices : List (String × (List ℤ × (ℕ → ℕ → ℚ)))

/-- The data and metadata collaborators reachable from a Quantity: the
case count, per-variable category codes and per-case dummy indicators,
per-variable weight columns, and the names of array masks. -/
structure DataEnv where
  nCases : ℕ
  codesOf : String → List ℤ
  dummyOf : String → ℕ → ℕ → ℚ
  weightCol : String → ℕ → ℚ
  masks : List String

/-- The full attribute dictionary of a `Quantity` instance as
`__init__`, `_squeeze_dummies` and `_reset` see it.  Attributes the
engine nulls out are Option-typed; opaque collaborators that `_reset`
only keeps or nulls are modelled as `Option Unit`. -/
structure QInstance where
  quantified : Option Bool
  isWeighted : Option Bool
  usesMeta : Bool
  d : Option DataEnv
  ds : Option Unit
  baseAll : Bool
  dataidx : Option Unit
  meta : Option Unit
  cache : Option CacheStore
  f : Option String
  x : Option String
  y : Option String
  w : Option String
  typ : Option VarType
  squeezed : Bool
  idxMap : Option Unit
  xdef : Option (List ℤ)
  ydef : Option (List ℤ)
  matrix : Option (ℕ → ℕ → ℕ → NpVal)
  isEmpty : Option Bool
  switched : Bool
  result : Option Unit
  cbase : Option Unit
  rbase : Option Unit
  combX : Option (List ℤ)
  combY : Option (List ℤ)
  missX : Option (List ℤ)
  missY : Option (List ℤ)
  calcX : Option Unit
  calcY : Option Unit
  hasXmargin : Option Bool
  hasYmargin : Option Bool
  wv : Option (ℕ → NpVal)
  xIdx : Option (List ℕ)
  yIdx : Option (List ℕ)

/-- `Quantity._reset` (sandbox.py lines 187-197): every attribute is
nulled except the keep list `['_uses_meta', 'base_all', '_dataidx',
'meta', '_cache', 'd', 'idx_map']` and the two flags `_squeezed`,
`switched` which are set to False.  The keep list names `'_cache'`,
but the instance attribute is named `cache` (set in `__init__` as
`self.cache = link.cache`), so the cache accessor itself is nulled;
`ds` is likewise nulled. -/
def reset (q : QInstance) : QInstance where
  quantified := none
  isWeighted := none
  usesMeta := q.usesMeta
  d := q.d
  ds := none
  baseAll := q.baseAll
  dataidx := q.dataidx
  meta := q.meta
  cache := none
  f := none
  x := none
  y := none
  w := none
  typ := none
  squeezed := false
  idxMap := q.idxMap
  xdef := none
  ydef := none
  matrix := none
  isEmpty := none
  switched := false
  result := none
  cbase := none
  rbase := none
  combX := none
  combY := none
  missX := none
  missY := none
  calcX := none
  calcY := none
  hasXmargin := none
  hasYmargin := none
  wv := none
  xIdx := none
  yIdx := none

/-- `Quantity._get_type` (sandbox.py lines 88-101) for a meta-using
Quantity: array masks are detected by name, a '>' in the y-name flags a
nested link, everything else is simple.  (An x in the masks whose type
is not 'array' falls off the end of the Python function; that branch is
not modelled.) -/
def getTypeOf (env : DataEnv) (x y : String) : VarType :=
  if x ∈ env.masks then VarType.array
  else if y.contains (Char.ofNat 62) then VarType.nested
  else VarType.simple

/-- The dummy section of a variable with its total column: position 0
is the constant 1 total, positions 1.. are the category indicators. -/
def sectionOf (env : DataEnv) (var : String) (c i : ℕ) : ℚ :=
  if i = 0 then 1 else env.dummyOf var c (i - 1)

/-- `Quantity._get_matrix` (sandbox.py lines 1268-1307) for the
simple/total variable types, composed with `_squeeze_dummies`: the
first statement calls `self.cache()`, so a nulled cache accessor raises
TypeError immediately; `_clean_from_missings` later calls `self.ds()`,
so a nulled dataset accessor also raises.  On success the squeezed
tensor cell (c, i, j) is the product of the x- and y-section dummies
(total columns at index 0; a total-only '@' y-axis contributes the
constant total column and a None ydef).  The cache memoization and the
empty-row cleaning of `_clean` are not modelled: they do not change
which calls raise. -/
def getMatrix (q : QInstance) : Except String QInstance :=
  match q.cache with
  | none => Except.error "TypeError: NoneType object is not callable"
  | some _ =>
      match q.d, q.x, q.y, q.w with
      | some env, some x, some y, some w =>
          match q.ds with
          | none => Except.error "TypeError: NoneType object is not callable"
          | some _ =>
              let xdef := env.codesOf x
              let ydef : Option (List ℤ) := if y = "@" then none else some (env.codesOf y)
              let m : ℕ → ℕ → ℕ → NpVal := fun c i j =>
                NpVal.num (sectionOf env x c i *
                  (if y = "@" then (if j = 0 then 1 else 0) else sectionOf env y c j))
              Except.ok { q with
                  matrix := some m
                  xdef := some xdef
                  ydef := ydef
                  wv := some (fun c => NpVal.num (env.weightCol w c))
                  squeezed := true }
      | _, _, _, _ => Except.error "TypeError: NoneType object has no attribute"

/-- `Quantity.swap` (sandbox.py lines 199-235): pick the new x/y pair,
save filter and weight, `_reset` the (copied, when inplace=False)
instance, restore the axes, filter and weight, recompute the type and
rebuild the matrix via `_get_matrix`.  In the pure embedding the
inplace and copying variants coincide. -/
def swap (q : QInstance) (var : String) (axis : Axis) : Except String QInstance :=
  let x := if axis = Axis.x then some var else q.x
  let y := if axis = Axis.x then q.y else some var
  let f := q.f
  let w := q.w
  let sw0 := reset q
  let sw1 := { sw0 with x := x, y := y, f := f, w := w }
  let sw2 := { sw1 with
                typ := some (match sw1.d, x, y with
                  | some env, some xv, some yv =>
                      if sw1.usesMeta then getTypeOf env xv yv else VarType.simple
                  | _, _, _ => VarType.simple) }
  match getMatrix sw2 with
  | Except.error e => Except.error e
  | Except.ok sw3 => Except.ok sw3

/-- C6: the claim fails on the code.  `swap` never returns a usable
clone: `_reset` nulls the `cache` attribute (the keep list spells it
`'_cache'`), so the rebuild step `_get_matrix` raises TypeError on its
first statement `self.cache().get_obj(...)` for every instance, every
variable and both axes. -/
theorem swap_always_raises (q : QInstance) (var : String) (axis : Axis) :
    swap q var axis = Except.error "TypeError: NoneType object is not callable" := rfl

/-- The metric of a `Test`: descriptives views test means, everything
else tests proportions. -/
inductive Metric where
  | means
  | proportions
deriving DecidableEq, Repr

/-- The 2D aggregation value block a `Test` works on. -/
abbrev Frame := List (List NpVal)

/-- `np.nansum` over a whole 2D block. -/
def frameNansum (f : Frame) : NpVal :=
  f.foldl (fun acc row =>
    row.foldl (fun a v => NpVal.add a (NpVal.nanToZero v)) acc) (NpVal.num 0)

/-- The in-place `values[:] = np.NaN` fill: same shape, every cell nan. -/
def nanFill (f : Frame) : Frame :=
  f.map (fun row => row.map (fun _ => NpVal.nan))

/-- The state of a `Test` instance that `set_params`, `run` and
`_empty_output` touch: the baseline values (with the row/column
multiindex of the incoming view matching their shape), the comparable
y-axis codes, the validity flags, and the parameter profile fields that
`set_params` assigns. -/
structure TestState where
  metric : Metric
  values : Frame
  ydef : List ℤ
  invalid : Bool
  noPairs : Bool
  noDiffs : Bool
  mimic : Mimic
  comparevalue : ℚ
  siglevel : ℚ
  testtype : String
  useEbase : Bool
  ovlpCorrec : Bool
  cwiFilter : Bool

/-- `Test.set_params` (sandbox.py lines 1716-1784), restricted to the
fields the output path reads: an aggregation whose nansum is 0 or with
a single comparable column is invalid (recording which of the two
degeneracies held) and only converts the significance level; otherwise
the mimic profile is installed (askia: unpooled, no effective base, no
overlap correction, cwi filtering; Dim: pooled with both corrections)
and the level is converted.  The value differences, effective bases,
overlap and base flags that the configured branch derives feed only the
significance path, which is outside this embedding. -/
def setParams (t : TestState) (level : TLevel) (mimic : Mimic) : TestState :=
  if frameNansum t.values = NpVal.num 0 ∨ t.ydef.length = 1 then
    { t with
        invalid := true
        noDiffs := decide (frameNansum t.values = NpVal.num 0)
        noPairs := decide (t.ydef.length = 1)
        mimic := mimic
        comparevalue := (convertLevel mimic level).1
        siglevel := (convertLevel mimic level).2 }
  else
    { t with
        invalid := false
        noDiffs := false
        noPairs := false
        mimic := mimic
        testtype := if mimic = Mimic.askia then "unpooled" else "pooled"
        useEbase := mimic = Mimic.dim
        ovlpCorrec := mimic = Mimic.dim
        cwiFilter := mimic = Mimic.askia
        comparevalue := (convertLevel mimic level).1
        siglevel := (convertLevel mimic level).2 }

/-- `Test._empty_output` (sandbox.py lines 2105-2121): proportions
fill the value block with nan when a degeneracy flag is set and
collapse the (1,1)/(1,0) shapes to a single nan; means return a single
nan under no_pairs and a nan-filled block under no_diffs.  The result
is framed with the incoming view's multiindex, so it keeps the input
shape. -/
def emptyOutput (t : TestState) : Frame :=
  match t.metric with
  | Metric.proportions =>
      let v := if t.noPairs || t.noDiffs then nanFill t.values else t.values
      if (v.length = 1 ∧ v.headI.length = 1) ∨ (v.length = 1 ∧ v.headI.length = 0) then
        [[NpVal.nan]]
      else v
  | Metric.means =>
      if t.noPairs then [[NpVal.nan]]
      else if t.noDiffs then nanFill t.values
      else t.values

/-- `Test.run` (sandbox.py lines 1789-1804): an invalid test
short-circuits to `_empty_output`; the configured branch
(`get_sig` feeding `_output`) is outside this embedding and is
represented by `none`. -/
def run (t : TestState) : Option Frame :=
  if t.invalid then some (emptyOutput t) else none

/-- C7: a Test whose aggregation has a single comparable y-column, or
whose values sum to zero, runs to the all-nan block of the same shape
as the input without raising: the nan fill keeps the row count and the
per-row lengths, and every cell of the output is nan. -/
theorem run_invalid_all_nan
    (t : TestState) (level : TLevel) (mimic : Mimic)
    (hrows : 1 ≤ t.values.length)
    (hrect : ∀ row ∈ t.values, row.length = t.ydef.length)
    (hcols : 1 ≤ t.ydef.length)
    (hmeans : t.metric = Metric.means → t.values.length = 1)
    (hinv : t.ydef.length = 1 ∨ frameNansum t.values = NpVal.num 0) :
    run (setParams t level mimic) = some (nanFill t.values)
    ∧ (nanFill t.values).length = t.values.length
    ∧ List.map List.length (nanFill t.values) = List.map List.length t.values
    ∧ ∀ row ∈ nanFill t.values, ∀ v ∈ row, v = NpVal.nan := by
  have hlen : (nanFill t.values).length = t.values.length := by simp [nanFill]
  have hmap : List.map List.length (nanFill t.values) = List.map List.length t.values := by
    simp [nanFill, List.map_map, Function.comp]
  have hnan : ∀ row ∈ nanFill t.values, ∀ v ∈ row, v = NpVal.nan := by
    intro row hrow v hv
    simp only [nanFill, List.mem_map] at hrow
    rcases hrow with ⟨r0, _, hr0⟩
    rw [← hr0] at hv
    simp only [List.mem_map] at hv
    rcases hv with ⟨v0, _, hv0⟩
    exact hv0.symm
  obtain ⟨r, rest, hv⟩ : ∃ r rest, t.values = r :: rest := by
    cases hval : t.values with
    | nil => rw [hval] at hrows; cases hrows
    | cons r rest => exact ⟨r, rest, rfl⟩
  have hrlen : r.length = t.ydef.length := hrect r (by rw [hv]; exact List.mem_cons_self r rest)
  have hcond : frameNansum t.values = NpVal.num 0 ∨ t.ydef.length = 1 := hinv.symm
  refine ⟨?_, hlen, hmap, hnan⟩
  have hset : setParams t level mimic
      = { t with
            invalid := true
            noDiffs := decide (frameNansum t.values = NpVal.num 0)
            noPairs := decide (t.ydef.length = 1)
            mimic := mimic
            comparevalue := (convertLevel mimic level).1
            siglevel := (convertLevel mimic level).2 } := by
    simp only [setParams, if_pos hcond]
  rw [hset]
  simp only [run, if_pos rfl]
  have hflag : (decide (frameNansum t.values = NpVal.num 0)
      || decide (t.ydef.length = 1)) = true := by
    rcases hcond with h | h
    · simp [h]
    · simp [h]
  cases hm : t.metric with
  | proportions =>
      simp only [emptyOutput, hm]
      rw [Bool.or_comm] at hflag
      rw [hflag]
      simp only [if_true, ite_true]
      have hnf : nanFill t.values = (r.map fun _ => NpVal.nan) :: (rest.map fun row => row.map fun _ => NpVal.nan) := by
        rw [hv]; simp [nanFill]
      by_cases hshape : (nanFill t.values).length = 1 ∧ (nanFill t.values).headI.length = 1
      · rcases hshape with ⟨h1, h2⟩
        have hrest : rest = [] := by
          rw [hnf] at h1
          simpa using h1
        have hr1 : r.length = 1 := by
          rw [hnf, hrest] at h2
          simpa using h2
        obtain ⟨a, ha⟩ := List.length_eq_one.mp hr1
        rw [if_pos (Or.inl ⟨h1, h2⟩)]
        rw [hnf, hrest, ha]
        rfl
      · have hne0 : ¬((nanFill t.values).length = 1 ∧ (nanFill t.values).headI.length = 0) := by
          rintro ⟨h1, h2⟩
          have hre : r = [] := by
            rw [hnf] at h2
            simpa using h2
          rw [hre, List.length_nil] at hrlen
          omega
        rw [if_neg ?hng]
        case hng => rintro (h | h) <;> [exact hshape h; exact hne0 h]
  | means =>
      have hv1 : t.values.length = 1 := hmeans hm
      have hrest : rest = [] := by
        rw [hv] at hv1
        simpa using hv1
      simp only [emptyOutput, hm]
      by_cases hp : t.ydef.length = 1
      · have hr1 : r.length = 1 := by rw [hrlen]; exact hp
        obtain ⟨a, ha⟩ := List.length_eq_one.mp hr1
        have hnp : decide (t.ydef.length = 1) = true := by simp [hp]
        have hone : nanFill t.values = [[NpVal.nan]] := by
          rw [hv, hrest, ha]
          rfl
        rw [hnp, hone]
        simp
      · have hd : frameNansum t.values = NpVal.num 0 := by
          rcases hcond with h | h
          · exact h
          · exact absurd h hp
        have hnp : decide (t.ydef.length = 1) = false := by simp [hp]
        have hnd : decide (frameNansum t.values = NpVal.num 0) = true := by simp [hd]
        rw [hnp, hnd]
        simp

/-- A concrete degenerate proportions Test state: a 2x2 all-zero count
block over two comparable columns. -/
def invalidTestState : TestState where
  metric := Metric.proportions
  values := [[NpVal.num 0, NpVal.num 0], [NpVal.num 0, NpVal.num 0]]
  ydef := [1, 2]
  invalid := false
  noPairs := false
  noDiffs := false
  mimic := Mimic.dim
  comparevalue := 0
  siglevel := 0
  testtype := ""
  useEbase := false
  ovlpCorrec := false
  cwiFilter := false

/-- Witness for C7: the invalid-run theorem instantiated at the
concrete all-zero proportions aggregation. -/
theorem run_invalid_all_nan_witness :
    run (setParams invalidTestState TLevel.mid Mimic.dim)
        = some (nanFill invalidTestState.values)
    ∧ (nanFill invalidTestState.values).length = invalidTestState.values.length
    ∧ List.map List.length (nanFill invalidTestState.values)
        = List.map List.length invalidTestState.values
    ∧ ∀ row ∈ nanFill invalidTestState.values, ∀ v ∈ row, v = NpVal.nan :=
  run_invalid_all_nan invalidTestState TLevel.mid Mimic.dim
    (by decide) (by decide) (by decide)
    (by intro h; cases h)
    (Or.inr (by norm_num [invalidTestState, frameNansum, NpVal.nanToZero, NpVal.add]))

end Quantipy
